import Mathlib

/-!
Verification of the Tabley booking-calendar core: a shallow embedding in Lean of
the availability resolver, the time-window mapper, the resize/move snapping
arithmetic, and the pending-change (quick-edit) staging engine, translated from
the source (`BookingCalendar` / `NewBookingCalendar` components and the
booking-form `availableTables` memo), together with theorems settling the
specification's claims about them.

Modelling conventions: JavaScript numbers holding whole minutes are embedded as
`Int`; fractional pixel-derived percentages as `ℚ`; `Math.round` as
`fun q => ⌊q + 1/2⌋` (round half toward positive infinity, as in JS);
`"HH:MM"` strings at their use sites as an hours/minutes pair, since the code
always converts them to minutes via `split(":").map(Number)`; a JS `Map` keyed
by booking id as an association list whose `set` overwrites in place;
`Array.prototype.sort` (stable since ES2019) as `List.insertionSort`, which is
stable; dates at minute granularity (the sub-minute seconds component of the
anchor `Date` is noise absorbed by the 15-minute snapping and is dropped).
-/

namespace Tabley

/-- Time of day with minute precision, the parsed form of an `"HH:MM"` string. -/
structure HM where
  h : Nat
  m : Nat
deriving DecidableEq

/-- Minutes since midnight, as computed by `hours * 60 + minutes` in the source. -/
def HM.toMin (t : HM) : Int := (t.h : Int) * 60 + (t.m : Int)

/-- Booking fields used by the calendar grid and the availability resolver. -/
structure Booking where
  id : Nat
  date : String
  table : String
  time : HM
  duration : Int
deriving DecidableEq

/-- Table fields used by the availability resolver (`table_number`,
`min_capacity`, `max_capacity`, `is_active`). -/
structure Table where
  table_number : String
  min_capacity : Int
  max_capacity : Int
  is_active : Bool
deriving DecidableEq

/-- The overlap test used at every conflict check site:
`startMinutes < existingEndMinutes && endMinutes > existingStartMinutes`
(half-open intervals). -/
def overlapTest (newStart newEnd existingStart existingEnd : Int) : Bool :=
  decide (newStart < existingEnd) && decide (newEnd > existingStart)

/-- Bookings on the given date and table:
`bookings.filter(b => b.date === dateStr && String(b.table) === checkTable)`. -/
def tableBookingsOn (bookings : List Booking) (dateStr tbl : String) : List Booking :=
  bookings.filter (fun b => b.date == dateStr && b.table == tbl)

/-- The `hasConflict` computation of `checkAvailability`: some booking on the
same table and date overlaps `[startM, endM)` under `overlapTest`. -/
def hasConflict (bookings : List Booking) (dateStr tbl : String) (startM endM : Int) : Bool :=
  (tableBookingsOn bookings dateStr tbl).any fun b =>
    overlapTest startM endM b.time.toMin (b.time.toMin + b.duration)

/-- The `canAccommodate` computation of `checkAvailability`:
`table && table.is_active && table.max_capacity >= guests` where `table` is the
first entry whose `table_number` matches (a missing table is falsy). Note the
source checks only the upper capacity bound. -/
def canAccommodate (tables : List Table) (guests : Int) (checkTable : String) : Bool :=
  match tables.find? (fun t => t.table_number == checkTable) with
  | some t => t.is_active && decide (guests ≤ t.max_capacity)
  | none => false

/-- The specific-table branch of `checkAvailability` in `NewBookingCalendar`:
`!hasConflict && canAccommodate`. -/
def checkAvailability (bookings : List Booking) (tables : List Table)
    (duration guests : Int) (checkTime : HM) (dateStr : String) (checkTable : String) : Bool :=
  let startM := checkTime.toMin
  let endM := startM + duration
  !hasConflict bookings dateStr checkTable startM endM && canAccommodate tables guests checkTable

/-- The `availableTables` memo of the booking form: keep active tables, then
(when a nonzero guest count is given) tables with
`min_capacity <= guests && max_capacity >= guests`, then tables with no
conflicting booking, and return their labels. -/
def availableTables (tables : List Table) (bookings : List Booking) (dateStr : String)
    (startM duration guests : Int) : List String :=
  ((((tables.filter fun t => t.is_active).filter fun t =>
      if guests = 0 then true
      else decide (t.min_capacity ≤ guests) && decide (guests ≤ t.max_capacity)).filter fun t =>
    !hasConflict bookings dateStr t.table_number startM (startM + duration)).map
      fun t => t.table_number)

/-- Claim C1: the conflict check reports a conflict iff some booking on the same
table and date satisfies `s < e' && e > s'` on half-open intervals; touching
intervals are never a conflict; and when the capacity gate passes,
`checkAvailability` returns unavailable exactly when such an overlap exists. -/
theorem C1_overlap_semantics (bookings : List Booking) (tables : List Table)
    (dateStr tbl : String) (startM endM duration guests : Int) (checkTime : HM)
    (hacc : canAccommodate tables guests tbl = true) :
    (hasConflict bookings dateStr tbl startM endM = true ↔
      ∃ b ∈ bookings, b.date = dateStr ∧ b.table = tbl ∧
        startM < b.time.toMin + b.duration ∧ endM > b.time.toMin) ∧
    (∀ s e s' e' : Int, e = s' → overlapTest s e s' e' = false) ∧
    (∀ s e s' e' : Int, e' = s → overlapTest s e s' e' = false) ∧
    (checkAvailability bookings tables duration guests checkTime dateStr tbl = false ↔
      hasConflict bookings dateStr tbl checkTime.toMin (checkTime.toMin + duration) = true) := by
  refine ⟨?_, ?_, ?_, ?_⟩
  · simp only [hasConflict, tableBookingsOn, List.any_eq_true, List.mem_filter,
      Bool.and_eq_true, beq_iff_eq, overlapTest, decide_eq_true_eq]
    constructor
    · rintro ⟨b, ⟨hb, hd, ht⟩, h1, h2⟩
      exact ⟨b, hb, hd, ht, h1, h2⟩
    · rintro ⟨b, hb, hd, ht, h1, h2⟩
      exact ⟨b, ⟨hb, hd, ht⟩, h1, h2⟩
  · intro s e s' e' he
    subst he
    simp [overlapTest]
  · intro s e s' e' he
    subst he
    simp [overlapTest]
  · simp [checkAvailability, hacc]

/-- Witness for C1 at a concrete input: one table, one existing booking
18:00–19:30 on it, a new request 19:30–20:30 touching it is available. -/
theorem C1_overlap_semantics_witness :
    canAccommodate [⟨"4", 2, 6, true⟩] 4 "4" = true ∧
    ((hasConflict [⟨1, "2024-06-01", "4", ⟨18, 0⟩, 90⟩] "2024-06-01" "4" 1170 1230 = true ↔
      ∃ b ∈ [(⟨1, "2024-06-01", "4", ⟨18, 0⟩, 90⟩ : Booking)], b.date = "2024-06-01" ∧
        b.table = "4" ∧ (1170 : Int) < b.time.toMin + b.duration ∧ (1230 : Int) > b.time.toMin) ∧
    (∀ s e s' e' : Int, e = s' → overlapTest s e s' e' = false) ∧
    (∀ s e s' e' : Int, e' = s → overlapTest s e s' e' = false) ∧
    (checkAvailability [⟨1, "2024-06-01", "4", ⟨18, 0⟩, 90⟩] [⟨"4", 2, 6, true⟩]
        60 4 ⟨19, 30⟩ "2024-06-01" "4" = false ↔
      hasConflict [⟨1, "2024-06-01", "4", ⟨18, 0⟩, 90⟩] "2024-06-01" "4"
        (HM.toMin ⟨19, 30⟩) (HM.toMin ⟨19, 30⟩ + 60) = true)) :=
  ⟨by decide, C1_overlap_semantics _ _ _ _ 1170 1230 60 4 ⟨19, 30⟩ (by decide)⟩

/-- Claim C4 counterexample: a table with capacity range `[4, 8]`, active, no
bookings, and a party of 2. `checkAvailability` reports available even though
the nonzero party size lies below `min_capacity`, so it is not true that the
check returns available only when the capacity range includes the party size. -/
theorem C4_counterexample :
    checkAvailability [] [⟨"5", 4, 8, true⟩] 60 2 ⟨18, 0⟩ "2024-06-01" "5" = true ∧
    (2 : Int) ≠ 0 ∧ ¬((4 : Int) ≤ 2 ∧ (2 : Int) ≤ 8) := by
  refine ⟨by decide, by decide, by decide⟩

/-- Claim C4 amended: the booking form's `availableTables` checks activity and,
for a nonzero party size, that `[min_capacity, max_capacity]` includes the party
size (zero party size skips the capacity filter); but the calendar's
`checkAvailability` enforces only activity and the upper bound
`partySize ≤ max_capacity`, never the lower bound. -/
theorem C4_capacity_rules (tables : List Table) (bookings : List Booking)
    (dateStr : String) (startM duration guests : Int) (lbl : String) (checkTime : HM)
    (tb : String)
    (hmem : lbl ∈ availableTables tables bookings dateStr startM duration guests) :
    (∃ t ∈ tables, t.table_number = lbl ∧ t.is_active = true ∧
      (guests ≠ 0 → t.min_capacity ≤ guests ∧ guests ≤ t.max_capacity)) ∧
    (checkAvailability bookings tables duration guests checkTime dateStr tb = true →
      ∃ t ∈ tables, t.table_number = tb ∧ t.is_active = true ∧ guests ≤ t.max_capacity) := by
  constructor
  · simp only [availableTables, List.mem_map, List.mem_filter] at hmem
    obtain ⟨t, ⟨⟨⟨htab, hact⟩, hcap⟩, _⟩, hlbl⟩ := hmem
    refine ⟨t, htab, hlbl, hact, ?_⟩
    intro hg
    by_cases h0 : guests = 0
    · exact absurd h0 hg
    · simp only [h0, if_false, Bool.and_eq_true, decide_eq_true_eq] at hcap
      exact hcap
  · intro hck
    simp only [checkAvailability, Bool.and_eq_true] at hck
    obtain ⟨-, hacc⟩ := hck
    simp only [canAccommodate] at hacc
    cases hfind : tables.find? (fun t => t.table_number == tb) with
    | none => rw [hfind] at hacc; exact absurd hacc (by simp)
    | some t =>
        rw [hfind] at hacc
        simp only [Bool.and_eq_true, decide_eq_true_eq] at hacc
        have hmem' := List.mem_of_find?_eq_some hfind
        have hpred := List.find?_some hfind
        simp only [beq_iff_eq] at hpred
        exact ⟨t, hmem', hpred, hacc.1, hacc.2⟩

/-- Witness for C4 amended: a party of 3 on a table with range `[2, 4]` appears
in `availableTables`, and `checkAvailability` passing implies the upper bound. -/
theorem C4_capacity_rules_witness :
    "1" ∈ availableTables [⟨"1", 2, 4, true⟩] [] "2024-06-01" 1080 60 3 ∧
    ((∃ t ∈ [(⟨"1", 2, 4, true⟩ : Table)], t.table_number = "1" ∧ t.is_active = true ∧
        ((3 : Int) ≠ 0 → t.min_capacity ≤ 3 ∧ (3 : Int) ≤ t.max_capacity)) ∧
      (checkAvailability [] [⟨"1", 2, 4, true⟩] 60 3 ⟨18, 0⟩ "2024-06-01" "1" = true →
        ∃ t ∈ [(⟨"1", 2, 4, true⟩ : Table)], t.table_number = "1" ∧ t.is_active = true ∧
          (3 : Int) ≤ t.max_capacity)) :=
  ⟨by decide, C4_capacity_rules _ _ _ 1080 60 3 "1" ⟨18, 0⟩ "1" (by decide)⟩

/-- The two edge-resize modes of the quick-edit engine. -/
inductive ResizeMode where
  | left
  | right
deriving DecidableEq

/-- The live resize preview: `previewTime` as minutes since midnight together
with `previewDuration`. -/
structure ResizeState where
  start : Int
  duration : Int
deriving DecidableEq

/-- Lower duration bound `MIN_DURATION = 60` of the resize handler. -/
def MIN_DURATION : Int := 60

/-- Upper duration bound `MAX_DURATION = 180` of the resize handler. -/
def MAX_DURATION : Int := 180

/-- The clamp `Math.max(MIN_DURATION, Math.min(MAX_DURATION, newDuration))`. -/
def clampDuration (d : Int) : Int := max MIN_DURATION (min MAX_DURATION d)

/-- The minutes-to-string-to-minutes round-trip a left resize stores: the code
formats `clampedStartMinutes` as an `"HH:MM"` string with
`Math.floor(clampedStartMinutes / 60)` and `clampedStartMinutes % 60`, and
every consumer reparses it as `hours * 60 + minutes`
(`split(":").map(Number)`). JS `Math.floor` of the real quotient is floor
division and the JS `%` keeps the dividend's sign (truncating remainder), so
the round-trip is the identity for nonnegative minutes but shifts a negative
start that is not a whole hour: −30 formats as `"-1:-30"`, which reparses as
−90. -/
def formatReparseHM (m : Int) : Int := 60 * Int.fdiv m 60 + Int.tmod m 60

/-- One pointer move of the resize branch of `handleMouseMove`: for a right
resize the new duration is `snappedMouseMinutes - start`, clamped, with the
start string untouched; for a left resize the new duration is
`end - snappedMouseMinutes`, clamped, and the start stored for the next
iteration is `end - clampedDuration` as it survives the `"HH:MM"` formatting
and reparse (`formatReparseHM`). -/
def resizeStep (mode : ResizeMode) (st : ResizeState) (snappedMouseMinutes : Int) : ResizeState :=
  let endTimeMinutes := st.start + st.duration
  match mode with
  | .right => { start := st.start, duration := clampDuration (snappedMouseMinutes - st.start) }
  | .left =>
      let newDuration := clampDuration (endTimeMinutes - snappedMouseMinutes)
      { start := formatReparseHM (endTimeMinutes - newDuration), duration := newDuration }

/-- Claim C2 at its failing input: a booking at 00:00 with duration 30 (the
spec allows creation durations down to 30 minutes), left-resized with the
pointer snapped to minute 0. The implied duration 30 is clamped to 60 and the
recomputed start 30 − 60 = −30 goes through the `"HH:MM"` formatting as
`"-1:-30"`, which reparses as −90 minutes — the stored preview end becomes
−30, so the fixed end 30 is not preserved, contrary to the claim and to the
code's own comment that the left-resize end stays fixed. The duration clamp
itself behaves as claimed. -/
theorem C2_left_resize_end_drift :
    resizeStep .left ⟨0, 30⟩ 0 = ⟨-90, 60⟩ ∧
    (resizeStep .left ⟨0, 30⟩ 0).start + (resizeStep .left ⟨0, 30⟩ 0).duration ≠ 0 + 30 ∧
    MIN_DURATION ≤ (resizeStep .left ⟨0, 30⟩ 0).duration ∧
    (resizeStep .left ⟨0, 30⟩ 0).duration ≤ MAX_DURATION := by
  refine ⟨by decide, by decide, by decide, by decide⟩

/-- A staged, uncommitted edit held in the `pendingChanges` map: exactly the
fields `{ time, table, duration }` sent to `updateBooking` — there is no date
field. -/
structure PendingChange where
  time : HM
  table : String
  duration : Int
deriving DecidableEq

/-- The JS `Map.set` on the `pendingChanges` map keyed by booking id: overwrite
the entry for an existing key in place, otherwise append. -/
def stage (pm : List (Nat × PendingChange)) (id : Nat) (c : PendingChange) :
    List (Nat × PendingChange) :=
  match pm with
  | [] => [(id, c)]
  | (k, v) :: rest => if k = id then (id, c) :: rest else (k, v) :: stage rest id c

/-- The JS `Map.get`: the staged change for a booking id, if any. -/
def lookupPending (pm : List (Nat × PendingChange)) (id : Nat) : Option PendingChange :=
  (pm.find? fun e => e.1 == id).map fun e => e.2

/-- The observable outcome of `handleApplyQuickEdit`: the `updateBooking` calls
issued (one per `forEach` entry) and the post-state of the pending map and the
quick-edit flag. -/
structure ApplyResult where
  calls : List (Nat × PendingChange)
  pendingAfter : List (Nat × PendingChange)
  isQuickEditAfter : Bool
deriving DecidableEq

/-- The `handleApplyQuickEdit` handler: `pendingChanges.forEach` issues one
mutation per entry, then `setPendingChanges(new Map())` and
`setIsQuickEdit(false)` run unconditionally — the handler never inspects any
mutation result, so the post-state does not depend on per-entry success. -/
def handleApplyQuickEdit (pm : List (Nat × PendingChange)) : ApplyResult :=
  { calls := pm, pendingAfter := [], isQuickEditAfter := false }

/-- A whole quick-edit session: the pending map built by a sequence of staged
commits (each a `Map.set`), starting from the empty map. -/
def buildPending (ops : List (Nat × PendingChange)) : List (Nat × PendingChange) :=
  ops.foldl (fun pm op => stage pm op.1 op.2) []

/-- The latest value staged for an id over a sequence of commits. -/
def lastStaged (ops : List (Nat × PendingChange)) (id : Nat) : Option PendingChange :=
  (ops.reverse.find? fun e => e.1 == id).map fun e => e.2

theorem lookupPending_stage (pm : List (Nat × PendingChange)) (i j : Nat) (c : PendingChange) :
    lookupPending (stage pm i c) j = if j = i then some c else lookupPending pm j := by
  induction pm with
  | nil =>
      by_cases h : j = i
      · subst h
        simp [stage, lookupPending]
      · have hbeq : (i == j) = false := by simp [Ne.symm h]
        simp [stage, lookupPending, List.find?, hbeq, h]
  | cons e rest ih =>
      obtain ⟨k, v⟩ := e
      simp only [stage]
      by_cases hk : k = i
      · rw [if_pos hk]
        by_cases h : j = i
        · have hbeq : (i == j) = true := by simp [h]
          simp [lookupPending, List.find?, hbeq, h]
        · have h1 : (i == j) = false := by simp [Ne.symm h]
          have h2 : (k == j) = false := by
            have : ¬k = j := by omega
            simp [this]
          simp [lookupPending, List.find?, h1, h2, h]
      · rw [if_neg hk]
        by_cases h : j = k
        · have h2 : (k == j) = true := by simp [h]
          have hji : ¬j = i := by omega
          simp [lookupPending, List.find?, h2, hji]
        · have h2 : (k == j) = false := by simp [Ne.symm h]
          simp only [lookupPending, List.find?, h2] at ih ⊢
          exact ih

theorem lookupPending_buildPending (ops : List (Nat × PendingChange)) (id : Nat) :
    lookupPending (buildPending ops) id = lastStaged ops id := by
  induction ops using List.reverseRecOn with
  | nil => simp [buildPending, lastStaged, lookupPending]
  | append_singleton ops op ih =>
      obtain ⟨i, c⟩ := op
      simp only [buildPending, List.foldl_append, List.foldl_cons, List.foldl_nil] at ih ⊢
      rw [lookupPending_stage]
      by_cases h : id = i
      · rw [if_pos h]
        have hbeq : (i == id) = true := by simp [h]
        simp [lastStaged, List.reverse_append, List.find?, hbeq]
      · rw [if_neg h]
        have hbeq : (i == id) = false := by simp [Ne.symm h]
        simp only [lastStaged, List.reverse_append, List.reverse_cons, List.reverse_nil,
          List.nil_append, List.cons_append, List.find?, hbeq]
        exact ih

theorem mem_stage_keys (pm : List (Nat × PendingChange)) (i : Nat) (c : PendingChange)
    (j : Nat) : j ∈ (stage pm i c).map Prod.fst ↔ j = i ∨ j ∈ pm.map Prod.fst := by
  induction pm with
  | nil => simp [stage]
  | cons e rest ih =>
      obtain ⟨k, v⟩ := e
      simp only [stage]
      by_cases hk : k = i
      · rw [if_pos hk]
        subst hk
        simp only [List.map_cons, List.mem_cons]
        tauto
      · rw [if_neg hk]
        simp only [List.map_cons, List.mem_cons, ih]
        tauto

theorem stage_keys_nodup (pm : List (Nat × PendingChange)) (i : Nat) (c : PendingChange)
    (h : (pm.map Prod.fst).Nodup) : ((stage pm i c).map Prod.fst).Nodup := by
  induction pm with
  | nil => simp [stage]
  | cons e rest ih =>
      obtain ⟨k, v⟩ := e
      simp only [List.map_cons, List.nodup_cons] at h
      simp only [stage]
      by_cases hk : k = i
      · rw [if_pos hk]
        subst hk
        simp only [List.map_cons, List.nodup_cons]
        exact ⟨h.1, h.2⟩
      · rw [if_neg hk]
        simp only [List.map_cons, List.nodup_cons]
        refine ⟨?_, ih h.2⟩
        intro hmem
        rcases (mem_stage_keys rest i c k).mp hmem with h1 | h1
        · exact hk h1
        · exact h.1 h1

theorem buildPending_keys_nodup (ops : List (Nat × PendingChange)) :
    ((buildPending ops).map Prod.fst).Nodup := by
  induction ops using List.reverseRecOn with
  | nil => simp [buildPending]
  | append_singleton ops op ih =>
      simp only [buildPending, List.foldl_append, List.foldl_cons, List.foldl_nil] at ih ⊢
      exact stage_keys_nodup _ _ _ ih

theorem mem_iff_lookupPending (pm : List (Nat × PendingChange)) (i : Nat) (c : PendingChange)
    (h : (pm.map Prod.fst).Nodup) : (i, c) ∈ pm ↔ lookupPending pm i = some c := by
  induction pm with
  | nil => simp [lookupPending]
  | cons e rest ih =>
      obtain ⟨k, v⟩ := e
      simp only [List.map_cons, List.nodup_cons] at h
      by_cases hk : k = i
      · subst hk
        constructor
        · intro hmem
          rcases List.mem_cons.mp hmem with heq | hmem'
          · have hvc : c = v := congrArg Prod.snd heq
            subst hvc
            simp [lookupPending, List.find?]
          · exact absurd (List.mem_map_of_mem Prod.fst hmem') h.1
        · intro hl
          have hvc : v = c := by simpa [lookupPending, List.find?] using hl
          subst hvc
          exact List.mem_cons_self _ _
      · have hbeq : (k == i) = false := by simp [hk]
        have hstep : lookupPending ((k, v) :: rest) i = lookupPending rest i := by
          simp [lookupPending, List.find?, hbeq]
        rw [hstep, ← ih h.2]
        constructor
        · intro hmem
          rcases List.mem_cons.mp hmem with heq | hmem'
          · have hik : i = k := congrArg Prod.fst heq
            exact absurd hik.symm hk
          · exact hmem'
        · exact fun hmem' => List.mem_cons_of_mem _ hmem'

/-- Claim C3: for any sequence of staged commits, `handleApplyQuickEdit` issues
its update calls over a map with no duplicate booking ids (hence exactly one
`updateBooking` call per distinct staged id), each call carries that id's latest
staged `{time, table, duration}` (overwrite semantics), and on completion the
pending map is empty and edit mode is off. -/
theorem C3_applyAll (ops : List (Nat × PendingChange)) (id : Nat) (c : PendingChange) :
    ((handleApplyQuickEdit (buildPending ops)).calls.map Prod.fst).Nodup ∧
    ((id, c) ∈ (handleApplyQuickEdit (buildPending ops)).calls ↔ lastStaged ops id = some c) ∧
    (handleApplyQuickEdit (buildPending ops)).pendingAfter = [] ∧
    (handleApplyQuickEdit (buildPending ops)).isQuickEditAfter = false := by
  refine ⟨buildPending_keys_nodup ops, ?_, rfl, rfl⟩
  rw [show (handleApplyQuickEdit (buildPending ops)).calls = buildPending ops from rfl,
    mem_iff_lookupPending _ _ _ (buildPending_keys_nodup ops), lookupPending_buildPending]

/-- Witness for C3: staging booking 7 twice then booking 2 once yields one call
per id, with booking 7 carrying its second staged value. -/
theorem C3_applyAll_witness :
    (((handleApplyQuickEdit (buildPending
        [(7, ⟨⟨18, 0⟩, "4", 90⟩), (7, ⟨⟨19, 0⟩, "5", 60⟩), (2, ⟨⟨12, 0⟩, "1", 120⟩)])).calls.map
        Prod.fst).Nodup ∧
      ((7, (⟨⟨19, 0⟩, "5", 60⟩ : PendingChange)) ∈ (handleApplyQuickEdit (buildPending
          [(7, ⟨⟨18, 0⟩, "4", 90⟩), (7, ⟨⟨19, 0⟩, "5", 60⟩), (2, ⟨⟨12, 0⟩, "1", 120⟩)])).calls ↔
        lastStaged [(7, ⟨⟨18, 0⟩, "4", 90⟩), (7, ⟨⟨19, 0⟩, "5", 60⟩), (2, ⟨⟨12, 0⟩, "1", 120⟩)] 7 =
          some ⟨⟨19, 0⟩, "5", 60⟩) ∧
      (handleApplyQuickEdit (buildPending
          [(7, ⟨⟨18, 0⟩, "4", 90⟩), (7, ⟨⟨19, 0⟩, "5", 60⟩), (2, ⟨⟨12, 0⟩, "1", 120⟩)])).pendingAfter =
        [] ∧
      (handleApplyQuickEdit (buildPending
          [(7, ⟨⟨18, 0⟩, "4", 90⟩), (7, ⟨⟨19, 0⟩, "5", 60⟩), (2, ⟨⟨12, 0⟩, "1", 120⟩)])).isQuickEditAfter =
        false) ∧
    (handleApplyQuickEdit (buildPending
        [(7, ⟨⟨18, 0⟩, "4", 90⟩), (7, ⟨⟨19, 0⟩, "5", 60⟩), (2, ⟨⟨12, 0⟩, "1", 120⟩)])).calls =
      [(7, ⟨⟨19, 0⟩, "5", 60⟩), (2, ⟨⟨12, 0⟩, "1", 120⟩)] :=
  ⟨C3_applyAll [(7, ⟨⟨18, 0⟩, "4", 90⟩), (7, ⟨⟨19, 0⟩, "5", 60⟩), (2, ⟨⟨12, 0⟩, "1", 120⟩)]
      7 ⟨⟨19, 0⟩, "5", 60⟩, by decide⟩

/-- Claim C5 counterexample: a pending map holding one staged entry for booking
1. Whatever happens to the issued update (the handler never inspects mutation
results), `handleApplyQuickEdit` leaves an empty pending map, so the entry does
not remain staged for a retry as the claim requires. -/
theorem C5_counterexample :
    (handleApplyQuickEdit [(1, ⟨⟨18, 0⟩, "4", 90⟩)]).pendingAfter = [] ∧
    (1, (⟨⟨18, 0⟩, "4", 90⟩ : PendingChange)) ∉
      (handleApplyQuickEdit [(1, ⟨⟨18, 0⟩, "4", 90⟩)]).pendingAfter := by
  exact ⟨rfl, by decide⟩

/-- Claim C5 amended: `handleApplyQuickEdit` is fire-and-forget — it issues one
update per staged entry and then unconditionally clears the whole pending map
and exits edit mode, regardless of per-entry success, so no entry (failed or
not) remains staged. -/
theorem C5_apply_fire_and_forget (pm : List (Nat × PendingChange)) (id : Nat)
    (c : PendingChange) (hmem : (id, c) ∈ pm) :
    (id, c) ∈ (handleApplyQuickEdit pm).calls ∧
    (id, c) ∉ (handleApplyQuickEdit pm).pendingAfter ∧
    (handleApplyQuickEdit pm).pendingAfter = [] ∧
    (handleApplyQuickEdit pm).isQuickEditAfter = false :=
  ⟨hmem, by simp [handleApplyQuickEdit], rfl, rfl⟩

/-- Witness for C5 amended at a one-entry pending map. -/
theorem C5_apply_fire_and_forget_witness :
    (2, (⟨⟨12, 30⟩, "B1", 60⟩ : PendingChange)) ∈ [(2, (⟨⟨12, 30⟩, "B1", 60⟩ : PendingChange))] ∧
    ((2, (⟨⟨12, 30⟩, "B1", 60⟩ : PendingChange)) ∈
        (handleApplyQuickEdit [(2, ⟨⟨12, 30⟩, "B1", 60⟩)]).calls ∧
      (2, (⟨⟨12, 30⟩, "B1", 60⟩ : PendingChange)) ∉
        (handleApplyQuickEdit [(2, ⟨⟨12, 30⟩, "B1", 60⟩)]).pendingAfter ∧
      (handleApplyQuickEdit [(2, ⟨⟨12, 30⟩, "B1", 60⟩)]).pendingAfter = [] ∧
      (handleApplyQuickEdit [(2, ⟨⟨12, 30⟩, "B1", 60⟩)]).isQuickEditAfter = false) :=
  ⟨by decide, C5_apply_fire_and_forget [(2, ⟨⟨12, 30⟩, "B1", 60⟩)] 2 ⟨⟨12, 30⟩, "B1", 60⟩
      (by decide)⟩

/-- Window lookback `WINDOW_HOURS_PREV = 1` hour. -/
def WINDOW_HOURS_PREV : Int := 1

/-- Window lookahead `WINDOW_HOURS_NEXT = 6` hours. -/
def WINDOW_HOURS_NEXT : Int := 6

/-- The constant total window span `(WINDOW_HOURS_PREV + WINDOW_HOURS_NEXT) * 60`. -/
def TOTAL_WINDOW_MINUTES : Int := (WINDOW_HOURS_PREV + WINDOW_HOURS_NEXT) * 60

/-- A calendar day (as an abstract index) together with a time of day in
minutes, the granularity at which the grid computes. -/
structure DayTime where
  day : Int
  tod : Int
deriving DecidableEq

/-- The `viewStart` computation: `windowStart = subHours(currentTime, 1)` and
then `setMinutes(setHours(selectedDate, windowStart.getHours()), windowStart.getMinutes())`
— only the time-of-day of the shifted anchor is kept, applied to the selected
date, so the time-of-day wraps modulo 24 hours while the day stays the
selected one. `currentTod` is the anchor's time-of-day in minutes. -/
def viewStart (selectedDate : Int) (currentTod : Int) : DayTime :=
  ⟨selectedDate, (currentTod - 60 * WINDOW_HOURS_PREV) % 1440⟩

/-- Claim C6 counterexample: anchor at 00:30 (before 01:00) on day 100. The
claim requires the window start to fall on the previous calendar day 99; the
code keeps day 100 and wraps the time-of-day to 23:30. -/
theorem C6_counterexample :
    (viewStart 100 30).day ≠ 99 ∧ (viewStart 100 30).day = 100 ∧
    (viewStart 100 30).tod = 1410 := by
  refine ⟨by decide, by decide, by decide⟩

/-- Claim C6 amended: the visible window starts at the selected date with
time-of-day equal to the anchor's time-of-day minus 1 hour wrapped modulo 24
hours — when the anchor is before 01:00 only the time-of-day wraps to late in
the same selected day, the date never shifts — and the total window span is
420 minutes. -/
theorem C6_viewStart (selectedDate currentTod : Int) (h0 : 0 ≤ currentTod)
    (h1 : currentTod < 1440) :
    (viewStart selectedDate currentTod).day = selectedDate ∧
    (60 ≤ currentTod → (viewStart selectedDate currentTod).tod = currentTod - 60) ∧
    (currentTod < 60 → (viewStart selectedDate currentTod).tod = currentTod + 1380) ∧
    TOTAL_WINDOW_MINUTES = 420 := by
  refine ⟨rfl, ?_, ?_, by decide⟩
  · intro h
    simp only [viewStart, WINDOW_HOURS_PREV]
    omega
  · intro h
    simp only [viewStart, WINDOW_HOURS_PREV]
    omega

/-- Witness for C6 amended at anchor 18:30 on day 7: window starts 17:30 the
same day. -/
theorem C6_viewStart_witness :
    (0 : Int) ≤ 1110 ∧ (1110 : Int) < 1440 ∧
    ((viewStart 7 1110).day = 7 ∧
      ((60 : Int) ≤ 1110 → (viewStart 7 1110).tod = 1110 - 60) ∧
      ((1110 : Int) < 60 → (viewStart 7 1110).tod = 1110 + 1380) ∧
      TOTAL_WINDOW_MINUTES = 420) :=
  ⟨by decide, by decide, C6_viewStart 7 1110 (by decide) (by decide)⟩

/-- JS `Math.round`: round half toward positive infinity. -/
def jsRound (q : ℚ) : Int := ⌊q + 1 / 2⌋

/-- The minute snapping of the move path: keep the hour of the instant and
replace its minutes component by `Math.round(minutes / 15) * 15`
(`setMinutes(roundedMinutes)` on the date). `absMinutes` is the instant in
minutes. -/
def snapToQuarterHour (absMinutes : Int) : Int :=
  60 * (absMinutes / 60) + jsRound (((absMinutes % 60 : Int) : ℚ) / 15) * 15

/-- The `getBookingPosition` mapping: minutes from `viewStart` divided by the
420-minute window, times 100. -/
def timeToPercent (t viewStartMin : Int) : ℚ :=
  (((t - viewStartMin : Int) : ℚ) / ((TOTAL_WINDOW_MINUTES : Int) : ℚ)) * 100

/-- The inverse mapping of `handleMouseMove`: percentage to minutes from
`viewStart` (`(p / 100) * TOTAL_WINDOW_MINUTES`), added to `viewStart` (the
`Date` keeps whole minutes, hence the floor), then snapped to the nearest
15-minute boundary. -/
def percentToTime (p : ℚ) (viewStartMin : Int) : Int :=
  snapToQuarterHour ⌊(viewStartMin : ℚ) + p / 100 * ((TOTAL_WINDOW_MINUTES : Int) : ℚ)⌋

/-- The resize-path snapping:
`snappedMouseMinutes = Math.round(mouseTimeMinutes / 15) * 15`, where
`mouseTimeMinutes` is fractional (pixel-derived). -/
def snapResize (mouseTimeMinutes : ℚ) : Int := jsRound (mouseTimeMinutes / 15) * 15

/-- The percentage clamp `Math.max(0, Math.min(100, q))` of `handleMouseMove`. -/
def clampPercent (q : ℚ) : ℚ := max 0 (min 100 q)

/-- The move branch of `handleMouseMove`: clamp the raw pointer percentage,
subtract the captured click offset, clamp again, convert to a time and snap. -/
def movePreviewTime (viewStartMin : Int) (mousePct clickOffsetPct : ℚ) : Int :=
  percentToTime (clampPercent (clampPercent mousePct - clickOffsetPct)) viewStartMin

theorem jsRound_bounds (q : ℚ) : q - 1 / 2 < (jsRound q : ℚ) ∧ (jsRound q : ℚ) ≤ q + 1 / 2 := by
  constructor
  · have h := Int.sub_one_lt_floor (q + 1 / 2)
    unfold jsRound
    linarith
  · exact Int.floor_le _

theorem jsRound_eq {q : ℚ} {n : Int} (h1 : (n : ℚ) ≤ q + 1 / 2) (h2 : q + 1 / 2 < n + 1) :
    jsRound q = n := by
  unfold jsRound
  exact Int.floor_eq_iff.mpr ⟨h1, h2⟩

theorem snapToQuarterHour_close (x : Int) :
    x - 7 ≤ snapToQuarterHour x ∧ snapToQuarterHour x ≤ x + 7 ∧
    (15 : Int) ∣ snapToQuarterHour x := by
  have hm0 : 0 ≤ x % 60 := Int.emod_nonneg x (by norm_num)
  have hm1 : x % 60 < 60 := Int.emod_lt_of_pos x (by norm_num)
  have hx : 60 * (x / 60) + x % 60 = x := Int.ediv_add_emod x 60
  have hb := jsRound_bounds (((x % 60 : Int) : ℚ) / 15)
  have h1 : 2 * (x % 60) - 15 < 30 * jsRound (((x % 60 : Int) : ℚ) / 15) := by
    have hq : ((2 * (x % 60) - 15 : Int) : ℚ) <
        ((30 * jsRound (((x % 60 : Int) : ℚ) / 15) : Int) : ℚ) := by
      push_cast
      linarith [hb.1]
    exact_mod_cast hq
  have h2 : 30 * jsRound (((x % 60 : Int) : ℚ) / 15) ≤ 2 * (x % 60) + 15 := by
    have hq : ((30 * jsRound (((x % 60 : Int) : ℚ) / 15) : Int) : ℚ) ≤
        ((2 * (x % 60) + 15 : Int) : ℚ) := by
      push_cast
      linarith [hb.2]
    exact_mod_cast hq
  have hsnap : snapToQuarterHour x =
      60 * (x / 60) + jsRound (((x % 60 : Int) : ℚ) / 15) * 15 := rfl
  refine ⟨by omega, by omega, ?_⟩
  exact ⟨4 * (x / 60) + jsRound (((x % 60 : Int) : ℚ) / 15), by rw [hsnap]; ring⟩

theorem snapToQuarterHour_aligned (x : Int) (h : x % 15 = 0) : snapToQuarterHour x = x := by
  have hx : 60 * (x / 60) + x % 60 = x := Int.ediv_add_emod x 60
  have hm : x % 60 = 0 ∨ x % 60 = 15 ∨ x % 60 = 30 ∨ x % 60 = 45 := by omega
  have hsnap : snapToQuarterHour x =
      60 * (x / 60) + jsRound (((x % 60 : Int) : ℚ) / 15) * 15 := rfl
  rcases hm with hm | hm | hm | hm
  · have hj : jsRound (((0 : Int) : ℚ) / 15) = 0 := jsRound_eq (by norm_num) (by norm_num)
    rw [hsnap, hm, hj]
    omega
  · have hj : jsRound (((15 : Int) : ℚ) / 15) = 1 := jsRound_eq (by norm_num) (by norm_num)
    rw [hsnap, hm, hj]
    omega
  · have hj : jsRound (((30 : Int) : ℚ) / 15) = 2 := jsRound_eq (by norm_num) (by norm_num)
    rw [hsnap, hm, hj]
    omega
  · have hj : jsRound (((45 : Int) : ℚ) / 15) = 3 := jsRound_eq (by norm_num) (by norm_num)
    rw [hsnap, hm, hj]
    omega

/-- Claim C7: for every time inside the visible window lying on a 15-minute
boundary, mapping it to a grid percentage and converting the percentage back
with 15-minute snapping returns the same time. -/
theorem C7_roundtrip (t v : Int) (hv : 0 ≤ v) (h1 : v ≤ t)
    (h2 : t ≤ v + TOTAL_WINDOW_MINUTES) (h15 : t % 15 = 0) :
    percentToTime (timeToPercent t v) v = t := by
  have h420 : ((TOTAL_WINDOW_MINUTES : Int) : ℚ) = 420 := by
    norm_num [TOTAL_WINDOW_MINUTES, WINDOW_HOURS_PREV, WINDOW_HOURS_NEXT]
  have hM : (v : ℚ) + timeToPercent t v / 100 * ((TOTAL_WINDOW_MINUTES : Int) : ℚ) = (t : ℚ) := by
    unfold timeToPercent
    rw [h420]
    push_cast
    field_simp
    ring
  unfold percentToTime
  rw [hM, Int.floor_intCast]
  exact snapToQuarterHour_aligned t h15

/-- Witness for C7 at 18:15 inside a window starting 18:00:
the round trip through the percentage is exact. -/
theorem C7_roundtrip_witness :
    (0 : Int) ≤ 1080 ∧ (1080 : Int) ≤ 1095 ∧ (1095 : Int) ≤ 1080 + TOTAL_WINDOW_MINUTES ∧
    (1095 : Int) % 15 = 0 ∧ percentToTime (timeToPercent 1095 1080) 1080 = 1095 :=
  ⟨by decide, by decide, by decide, by decide,
    C7_roundtrip 1095 1080 (by decide) (by decide) (by decide) (by decide)⟩

/-- Claim C8 counterexample: at the tie `mouseTimeMinutes = 7.5` the code's
`Math.round(minutes / 15) * 15` snapping yields 15 — it rounds the tie up —
whereas rounding the tie toward the nearest even increment (0, an even
multiple of 15) would yield 0. -/
theorem C8_counterexample :
    snapResize (15 / 2 : ℚ) = 15 ∧ snapResize (15 / 2 : ℚ) ≠ 0 := by
  have hj : jsRound ((15 / 2 : ℚ) / 15) = 1 := jsRound_eq (by norm_num) (by norm_num)
  have hv : snapResize (15 / 2 : ℚ) = 15 := by
    unfold snapResize
    rw [hj]
    norm_num
  exact ⟨hv, by rw [hv]; norm_num⟩

/-- Claim C8 amended: drag snapping is exactly `Math.round(minutes / 15) * 15`,
which snaps to the nearest 15-minute boundary with ties rounding up toward the
greater increment (never toward even); the spec scenario holds — a drag landing
at 18:07 snaps to 18:00. -/
theorem C8_snapping (k : Int) (q : ℚ) :
    snapToQuarterHour 1087 = 1080 ∧
    snapResize (((15 * k : Int) : ℚ) + 15 / 2) = 15 * (k + 1) ∧
    |((snapResize q : Int) : ℚ) - q| ≤ 15 / 2 := by
  refine ⟨?_, ?_, ?_⟩
  · have hj : jsRound (((1087 % 60 : Int) : ℚ) / 15) = 0 := by
      refine jsRound_eq ?_ ?_ <;> norm_num
    unfold snapToQuarterHour
    rw [hj]
    decide
  · unfold snapResize jsRound
    have harg : (((15 * k : Int) : ℚ) + 15 / 2) / 15 + 1 / 2 = ((k + 1 : Int) : ℚ) := by
      push_cast
      ring
    rw [harg, Int.floor_intCast]
    ring
  · have hb := jsRound_bounds (q / 15)
    have hcast : ((snapResize q : Int) : ℚ) = (jsRound (q / 15) : ℚ) * 15 := by
      unfold snapResize
      push_cast
      ring
    rw [hcast, abs_le]
    constructor <;> nlinarith [hb.1, hb.2]

/-- Witness for C8 amended at the tie above 18:00 and at raw minute value 7. -/
theorem C8_snapping_witness :
    snapToQuarterHour 1087 = 1080 ∧
    snapResize (((15 * 72 : Int) : ℚ) + 15 / 2) = 15 * (72 + 1) ∧
    |((snapResize 7 : Int) : ℚ) - 7| ≤ 15 / 2 :=
  C8_snapping 72 7

/-- The `getEffectiveBooking` helper: a staged pending change overrides the
booking's time, table and duration; otherwise, during a resize of this booking
with a positive preview duration, the preview duration and time override
(`previewTime || booking.time`); otherwise the booking is unchanged. No branch
touches the date. -/
def getEffectiveBooking (pm : List (Nat × PendingChange)) (resizeId : Option Nat)
    (previewDuration : Int) (previewTime : Option HM) (b : Booking) : Booking :=
  match lookupPending pm b.id with
  | some c => { b with time := c.time, table := c.table, duration := c.duration }
  | none =>
      if resizeId = some b.id ∧ 0 < previewDuration then
        { b with duration := previewDuration, time := previewTime.getD b.time }
      else b

/-- Claim C10 counterexample: with a window starting at 10:07 (607 minutes —
the anchor need not be 15-minute aligned), a move with pointer percentage 0 and
zero grab offset previews time 10:00, which is before `viewStart` and hence
outside the visible window, despite both percentage clamps. -/
theorem C10_counterexample :
    movePreviewTime 607 0 0 = 600 ∧ ¬(607 ≤ movePreviewTime 607 0 0) := by
  have hclamp : clampPercent (clampPercent 0 - 0) = 0 := by
    norm_num [clampPercent]
  have harg : ((607 : Int) : ℚ) + (0 : ℚ) / 100 * ((TOTAL_WINDOW_MINUTES : Int) : ℚ) =
      ((607 : Int) : ℚ) := by
    norm_num
  have hj : jsRound (((607 % 60 : Int) : ℚ) / 15) = 0 := by
    refine jsRound_eq ?_ ?_ <;> norm_num
  have hv : movePreviewTime 607 0 0 = 600 := by
    unfold movePreviewTime percentToTime
    rw [hclamp, harg, Int.floor_intCast]
    unfold snapToQuarterHour
    rw [hj]
    decide
  exact ⟨hv, by rw [hv]; norm_num⟩

/-- Claim C10 amended: during a move both the raw and the offset-adjusted
percentages are clamped to `[0, 100]`, so the pre-snap instant lies inside the
420-minute window; after 15-minute snapping the preview time lies within the
window extended by the snapping slack `[viewStart - 7, viewStart + 427]`, and
lies inside the window proper whenever `viewStart` is 15-minute aligned; and a
staged `PendingChange` carries only `{time, table, duration}`, so neither a
move nor a resize edit can change a booking's date. -/
theorem C10_move_window (v : Int) (mp off : ℚ) (pm : List (Nat × PendingChange))
    (rid : Option Nat) (pd : Int) (pt : Option HM) (b : Booking) :
    (0 ≤ clampPercent (clampPercent mp - off) ∧ clampPercent (clampPercent mp - off) ≤ 100) ∧
    (v - 7 ≤ movePreviewTime v mp off ∧
      movePreviewTime v mp off ≤ v + TOTAL_WINDOW_MINUTES + 7) ∧
    (v % 15 = 0 →
      v ≤ movePreviewTime v mp off ∧ movePreviewTime v mp off ≤ v + TOTAL_WINDOW_MINUTES) ∧
    (getEffectiveBooking pm rid pd pt b).date = b.date := by
  have hTW : TOTAL_WINDOW_MINUTES = 420 := by decide
  have hadj0 : (0 : ℚ) ≤ clampPercent (clampPercent mp - off) := le_max_left _ _
  have hadj1 : clampPercent (clampPercent mp - off) ≤ 100 :=
    max_le (by norm_num) (min_le_left _ _)
  set adj := clampPercent (clampPercent mp - off) with hadjdef
  have hM0 : (v : ℚ) ≤ (v : ℚ) + adj / 100 * ((TOTAL_WINDOW_MINUTES : Int) : ℚ) := by
    have : (0 : ℚ) ≤ adj / 100 * ((TOTAL_WINDOW_MINUTES : Int) : ℚ) := by
      apply mul_nonneg (div_nonneg hadj0 (by norm_num))
      rw [hTW]
      norm_num
    linarith
  have hM1 : (v : ℚ) + adj / 100 * ((TOTAL_WINDOW_MINUTES : Int) : ℚ) ≤ (v : ℚ) + 420 := by
    have h1 : adj / 100 ≤ 1 := by
      rw [div_le_one (by norm_num)]
      exact hadj1
    have h2 : adj / 100 * ((TOTAL_WINDOW_MINUTES : Int) : ℚ) ≤ 1 * 420 := by
      rw [hTW]
      apply mul_le_mul h1 (by norm_num) (by norm_num) (by norm_num)
    linarith
  have hfl0 : v ≤ ⌊(v : ℚ) + adj / 100 * ((TOTAL_WINDOW_MINUTES : Int) : ℚ)⌋ :=
    Int.le_floor.mpr hM0
  have hfl1 : ⌊(v : ℚ) + adj / 100 * ((TOTAL_WINDOW_MINUTES : Int) : ℚ)⌋ ≤ v + 420 := by
    have hle : ((⌊(v : ℚ) + adj / 100 * ((TOTAL_WINDOW_MINUTES : Int) : ℚ)⌋ : Int) : ℚ) ≤
        ((v + 420 : Int) : ℚ) := by
      refine le_trans (Int.floor_le _) ?_
      push_cast
      linarith
    exact_mod_cast hle
  have hmv : movePreviewTime v mp off =
      snapToQuarterHour ⌊(v : ℚ) + adj / 100 * ((TOTAL_WINDOW_MINUTES : Int) : ℚ)⌋ := rfl
  have hclose := snapToQuarterHour_close ⌊(v : ℚ) + adj / 100 * ((TOTAL_WINDOW_MINUTES : Int) : ℚ)⌋
  refine ⟨⟨hadj0, hadj1⟩, ⟨?_, ?_⟩, ?_, ?_⟩
  · rw [hmv]
    omega
  · rw [hmv]
    omega
  · intro hv15
    obtain ⟨k, hk⟩ := hclose.2.2
    rw [hmv]
    omega
  · unfold getEffectiveBooking
    cases lookupPending pm b.id
    · dsimp only
      split
      · rfl
      · rfl
    · rfl

/-- Witness for C10 amended with an aligned window start at 10:00, pointer at
50 percent with a 10 percent grab offset, and an unedited booking. -/
theorem C10_move_window_witness :
    ((0 : ℚ) ≤ clampPercent (clampPercent 50 - 10) ∧
      clampPercent (clampPercent 50 - 10) ≤ 100) ∧
    ((600 : Int) - 7 ≤ movePreviewTime 600 50 10 ∧
      movePreviewTime 600 50 10 ≤ 600 + TOTAL_WINDOW_MINUTES + 7) ∧
    ((600 : Int) % 15 = 0 →
      (600 : Int) ≤ movePreviewTime 600 50 10 ∧
        movePreviewTime 600 50 10 ≤ 600 + TOTAL_WINDOW_MINUTES) ∧
    (getEffectiveBooking [] none 0 none ⟨1, "2024-06-01", "4", ⟨18, 0⟩, 90⟩).date =
      (⟨1, "2024-06-01", "4", ⟨18, 0⟩, 90⟩ : Booking).date :=
  C10_move_window 600 50 10 [] none 0 none ⟨1, "2024-06-01", "4", ⟨18, 0⟩, 90⟩

/-- A maximal run of a table label: either a run of digits or a run of
non-digit characters, as segmented by numeric-aware collation. -/
inductive Seg where
  | num : List Char → Seg
  | str : List Char → Seg
deriving DecidableEq

/-- Segment a label into digit and non-digit runs. -/
def segsOf : List Char → List Seg
  | [] => []
  | c :: cs =>
    let rest := segsOf cs
    if c.isDigit then
      match rest with
      | Seg.num ds :: r => Seg.num (c :: ds) :: r
      | _ => Seg.num [c] :: rest
    else
      match rest with
      | Seg.str ds :: r => Seg.str (c :: ds) :: r
      | _ => Seg.str [c] :: rest

/-- Numeric value of a digit run. -/
def digitsToNat (ds : List Char) : Nat := ds.foldl (fun n c => n * 10 + (c.toNat - 48)) 0

/-- Plain lexicographic character comparison for non-digit runs. -/
def cmpCharList : List Char → List Char → Ordering
  | [], [] => Ordering.eq
  | [], _ :: _ => Ordering.lt
  | _ :: _, [] => Ordering.gt
  | a :: as, b :: bs =>
    match compare a b with
    | Ordering.eq => cmpCharList as bs
    | o => o

/-- Compare two segments: digit runs compare as numbers, digit runs sort before
non-digit runs, non-digit runs compare lexicographically. -/
def segCmp : Seg → Seg → Ordering
  | Seg.num a, Seg.num b => compare (digitsToNat a) (digitsToNat b)
  | Seg.num _, Seg.str _ => Ordering.lt
  | Seg.str _, Seg.num _ => Ordering.gt
  | Seg.str a, Seg.str b => cmpCharList a b

/-- Lexicographic comparison of segment lists. -/
def cmpSegList : List Seg → List Seg → Ordering
  | [], [] => Ordering.eq
  | [], _ :: _ => Ordering.lt
  | _ :: _, [] => Ordering.gt
  | a :: as, b :: bs =>
    match segCmp a b with
    | Ordering.eq => cmpSegList as bs
    | o => o

/-- The numeric-aware label comparison
`a.localeCompare(b, undefined, { numeric: true })`: numeric segments compare as
numbers, not lexicographically, so the label 2 precedes the label 10. -/
def numericAwareCmp (a b : String) : Ordering := cmpSegList (segsOf a.data) (segsOf b.data)

/-- The sort relation induced by the comparator (`compare result <= 0`). -/
def tableLe (a b : Table) : Prop := numericAwareCmp a.table_number b.table_number ≠ Ordering.gt

instance : DecidableRel tableLe := fun a b =>
  inferInstanceAs (Decidable (numericAwareCmp a.table_number b.table_number ≠ Ordering.gt))

/-- The candidate list of the first-available-table scan:
`tablesData.filter(t => t.is_active && t.max_capacity >= guests)` sorted by the
numeric-aware label comparator (a stable sort, as `Array.prototype.sort` is). -/
def sortedCandidates (tables : List Table) (guests : Int) : List Table :=
  List.insertionSort tableLe (tables.filter fun t => t.is_active && decide (guests ≤ t.max_capacity))

/-- The fallback branch of `checkAvailability` when no specific table is given:
scan the sorted candidates and return the label of the first with no
conflicting booking, or null when every candidate conflicts. -/
def findFirstAvailableTable (tables : List Table) (bookings : List Booking) (dateStr : String)
    (checkTime : HM) (duration guests : Int) : Option String :=
  let startM := checkTime.toMin
  let endM := startM + duration
  ((sortedCandidates tables guests).find? fun t =>
      !hasConflict bookings dateStr t.table_number startM endM).map fun t => t.table_number

/-- Claim C9: the scan runs over the candidates in numeric-aware label order —
for labels 2, 10, 1 the order is 1, 2, 10, and with table 1 occupied the scan
returns table 2, with nothing occupied table 1, demonstrating first-match in
that order; in general a returned label belongs to an active table with enough
capacity and no overlapping booking, and the scan returns null exactly when
every active, capacious table has a conflict. -/
theorem C9_first_available (tables : List Table) (bookings : List Booking)
    (dateStr : String) (checkTime : HM) (duration guests : Int) :
    ((sortedCandidates [⟨"2", 2, 8, true⟩, ⟨"10", 2, 8, true⟩, ⟨"1", 2, 8, true⟩] 4).map
      Table.table_number = ["1", "2", "10"]) ∧
    (findFirstAvailableTable [⟨"2", 2, 8, true⟩, ⟨"10", 2, 8, true⟩, ⟨"1", 2, 8, true⟩]
      [] "2024-06-01" ⟨18, 0⟩ 90 4 = some "1") ∧
    (findFirstAvailableTable [⟨"2", 2, 8, true⟩, ⟨"10", 2, 8, true⟩, ⟨"1", 2, 8, true⟩]
      [⟨1, "2024-06-01", "1", ⟨18, 0⟩, 60⟩] "2024-06-01" ⟨18, 0⟩ 90 4 = some "2") ∧
    (findFirstAvailableTable tables bookings dateStr checkTime duration guests = none ↔
      ∀ t ∈ tables, t.is_active = true → guests ≤ t.max_capacity →
        hasConflict bookings dateStr t.table_number checkTime.toMin
          (checkTime.toMin + duration) = true) ∧
    (∀ lbl, findFirstAvailableTable tables bookings dateStr checkTime duration guests =
        some lbl →
      ∃ t ∈ tables, t.table_number = lbl ∧ t.is_active = true ∧ guests ≤ t.max_capacity ∧
        hasConflict bookings dateStr t.table_number checkTime.toMin
          (checkTime.toMin + duration) = false) := by
  refine ⟨by decide, by decide, by decide, ?_, ?_⟩
  · unfold findFirstAvailableTable
    simp only [Option.map_eq_none', List.find?_eq_none, sortedCandidates,
      List.mem_insertionSort, List.mem_filter, Bool.and_eq_true, decide_eq_true_eq,
      Bool.not_eq_true']
    constructor
    · intro h t ht hact hcap
      have := h t ⟨ht, hact, hcap⟩
      simpa using this
    · intro h t ht
      have := h t ht.1 ht.2.1 ht.2.2
      simpa using this
  · intro lbl hfind
    unfold findFirstAvailableTable at hfind
    simp only [Option.map_eq_some'] at hfind
    obtain ⟨t, hfind, rfl⟩ := hfind
    have hmem := List.mem_of_find?_eq_some hfind
    have hpred := List.find?_some hfind
    simp only [sortedCandidates, List.mem_insertionSort, List.mem_filter, Bool.and_eq_true,
      decide_eq_true_eq] at hmem
    simp only [Bool.not_eq_true'] at hpred
    exact ⟨t, hmem.1, rfl, hmem.2.1, hmem.2.2, hpred⟩

/-- Witness for C9 with one table and one conflicting booking: the scan
returns null, matching the every-candidate-conflicts characterization. -/
theorem C9_first_available_witness :
    ((sortedCandidates [⟨"2", 2, 8, true⟩, ⟨"10", 2, 8, true⟩, ⟨"1", 2, 8, true⟩] 4).map
      Table.table_number = ["1", "2", "10"]) ∧
    (findFirstAvailableTable [⟨"2", 2, 8, true⟩, ⟨"10", 2, 8, true⟩, ⟨"1", 2, 8, true⟩]
      [] "2024-06-01" ⟨18, 0⟩ 90 4 = some "1") ∧
    (findFirstAvailableTable [⟨"2", 2, 8, true⟩, ⟨"10", 2, 8, true⟩, ⟨"1", 2, 8, true⟩]
      [⟨1, "2024-06-01", "1", ⟨18, 0⟩, 60⟩] "2024-06-01" ⟨18, 0⟩ 90 4 = some "2") ∧
    (findFirstAvailableTable [⟨"7", 2, 8, true⟩] [⟨1, "2024-06-01", "7", ⟨18, 0⟩, 60⟩]
        "2024-06-01" ⟨18, 0⟩ 90 4 = none ↔
      ∀ t ∈ [(⟨"7", 2, 8, true⟩ : Table)], t.is_active = true → (4 : Int) ≤ t.max_capacity →
        hasConflict [⟨1, "2024-06-01", "7", ⟨18, 0⟩, 60⟩] "2024-06-01" t.table_number
          (HM.toMin ⟨18, 0⟩) (HM.toMin ⟨18, 0⟩ + 90) = true) ∧
    (∀ lbl, findFirstAvailableTable [⟨"7", 2, 8, true⟩] [⟨1, "2024-06-01", "7", ⟨18, 0⟩, 60⟩]
        "2024-06-01" ⟨18, 0⟩ 90 4 = some lbl →
      ∃ t ∈ [(⟨"7", 2, 8, true⟩ : Table)], t.table_number = lbl ∧ t.is_active = true ∧
        (4 : Int) ≤ t.max_capacity ∧
        hasConflict [⟨1, "2024-06-01", "7", ⟨18, 0⟩, 60⟩] "2024-06-01" t.table_number
          (HM.toMin ⟨18, 0⟩) (HM.toMin ⟨18, 0⟩ + 90) = false) :=
  C9_first_available [⟨"7", 2, 8, true⟩] [⟨1, "2024-06-01", "7", ⟨18, 0⟩, 60⟩]
    "2024-06-01" ⟨18, 0⟩ 90 4

end Tabley
